import Mathlib

/-!
Verification development for the watchlist refresh pipeline
(scraper, TMDB enricher, refresh orchestrator, store).

The Python sources are shallowly embedded:
* `models.py`   → `StreamingPlatform`, `Film`
* `scraper.py`  → `ScrapedFilm`, `parse_watchlist_page`, `scrape_watchlist`
* `tmdb.py`     → `get_movie_details`, `enrich_one`, `enrich_films`,
                  plus a semaphore/in-flight-request transition system
* `database.py` → `upsert_film`, `delete_films_not_in_watchlist`
* `scheduler.py`→ `run_refresh` (store effect) and a two-process
                  interleaving model of the refresh flag.

HTML pages are embedded as structured values (the attribute/element facts
the parser inspects); network calls are embedded as explicit outcome
parameters (`Except` for fallible calls).  Every Python truthiness test
(`or`, `if x`) is modelled as the corresponding emptiness/`Option` test.
-/

/-- `models.py` `StreamingPlatform`: provider id, name, optional logo URL. -/
structure StreamingPlatform where
  provider_id : Nat
  provider_name : String
  logo_path : Option String := none
deriving DecidableEq, Repr

/-- `models.py` `Film`: one enriched watchlist entry as persisted. -/
structure Film where
  id : Option Nat := none
  letterboxd_slug : String
  title : String
  year : Option Nat := none
  tmdb_id : Option Nat := none
  tmdb_status : String := "pending"
  poster_url : Option String := none
  overview : Option String := none
  runtime_minutes : Option Nat := none
  original_language : Option String := none
  genres : List String := []
  streaming_platforms : List StreamingPlatform := []
  watch_link : Option String := none
  country : Option String := none
  last_checked : Option String := none
  source : String := "letterboxd"
deriving DecidableEq, Repr

/-- `scraper.py` `ScrapedFilm`: slug + display title of one watchlist entry. -/
structure ScrapedFilm where
  slug : String
  title : String
deriving DecidableEq, Repr

/-- An `<img>` element as far as the scraper inspects it: its `alt` attribute. -/
structure ImgNode where
  alt : Option String := none
deriving DecidableEq, Repr

/-- A legacy-markup poster container (`li.poster-container div.film-poster`):
its `data-film-slug` attribute and its first `<img>` child, if any. -/
structure Poster where
  data_film_slug : Option String := none
  img : Option ImgNode := none
deriving DecidableEq, Repr

/-- A current-markup card (`div.react-component[data-component-class=LazyPoster]`):
the attributes and first `<img>` child the parser inspects. -/
structure Card where
  data_item_slug : Option String := none
  data_target_link : Option String := none
  data_item_name : Option String := none
  img : Option ImgNode := none
deriving DecidableEq, Repr

/-- One watchlist HTML page, reduced to the facts `_parse_watchlist_page`
extracts with BeautifulSoup: the legacy poster containers, the current
cards (in document order), and whether an `a.next` link is present. -/
structure Page where
  posters : List Poster := []
  cards : List Card := []
  next_link : Bool := false
deriving DecidableEq, Repr

/-- Python `str.strip()`: drop whitespace from both ends. -/
def pyStrip (s : String) : String :=
  String.mk
    (((s.toList.dropWhile Char.isWhitespace).reverse.dropWhile
        Char.isWhitespace).reverse)

/-- Python `str.strip("/")`: drop `'/'` characters from both ends. -/
def stripSlashes (s : String) : String :=
  String.mk (((s.toList.dropWhile (· = '/')).reverse.dropWhile (· = '/')).reverse)

/-- One step of Python `str.split(sep)` for a single-character separator. -/
def splitOnChar (sep : Char) : List Char → List (List Char)
  | [] => [[]]
  | c :: cs =>
    let r := splitOnChar sep cs
    if c = sep then [] :: r
    else match r with
      | [] => [[c]]
      | h :: t => (c :: h) :: t

/-- Python `str.split("/")` (note `"".split("/") = [""]`). -/
def pySplitSlash (s : String) : List String :=
  (splitOnChar '/' s.toList).map String.mk

/-- `scraper.py` line 53: `(poster.get("data-film-slug") or "").strip()`. -/
def legacySlug (p : Poster) : String :=
  pyStrip (p.data_film_slug.getD "")

/-- `scraper.py` line 57: `img["alt"] if img and img.get("alt") else slug`
(an empty `alt` is falsy in Python and falls back to the slug). -/
def legacyTitle (p : Poster) (slug : String) : String :=
  match p.img with
  | some im => match im.alt with
    | some a => if a = "" then slug else a
    | none => slug
  | none => slug

/-- `scraper.py` lines 63-69: `data-item-slug`, falling back to a
`data-target-link` of shape `film/<slug>`. -/
def currentSlug (c : Card) : String :=
  let s1 := pyStrip (c.data_item_slug.getD "")
  if s1 = "" then
    let target_link := stripSlashes (c.data_target_link.getD "")
    match pySplitSlash target_link with
    | p0 :: p1 :: _ => if p0 = "film" then pyStrip p1 else ""
    | _ => ""
  else s1

/-- `scraper.py` line 74: `img["alt"] if img and img.get("alt") else
(card.get("data-item-name") or slug)`. -/
def currentTitle (c : Card) (slug : String) : String :=
  let fallback := if (c.data_item_name.getD "") = "" then slug
                  else c.data_item_name.getD ""
  match c.img with
  | some im => match im.alt with
    | some a => if a = "" then fallback else a
    | none => fallback
  | none => fallback

/-- Loop body of the legacy-markup pass (`scraper.py` lines 52-59):
skip empty or already-seen slugs, else append the film and record the slug. -/
def legacyFold (acc : List ScrapedFilm × List String) (p : Poster) :
    List ScrapedFilm × List String :=
  let slug := legacySlug p
  if slug = "" ∨ slug ∈ acc.2 then acc
  else (acc.1 ++ [⟨slug, legacyTitle p slug⟩], slug :: acc.2)

/-- Loop body of the current-markup pass (`scraper.py` lines 62-76). -/
def currentFold (acc : List ScrapedFilm × List String) (c : Card) :
    List ScrapedFilm × List String :=
  let slug := currentSlug c
  if slug = "" ∨ slug ∈ acc.2 then acc
  else (acc.1 ++ [⟨slug, currentTitle c slug⟩], slug :: acc.2)

/-- `scraper.py` `_parse_watchlist_page`: run the legacy pass, then the
current pass sharing the same seen-slug set, and report `a.next` presence. -/
def parse_watchlist_page (page : Page) : List ScrapedFilm × Bool :=
  ((page.cards.foldl currentFold (page.posters.foldl legacyFold ([], []))).1,
   page.next_link)

/-- `scraper.py` `scrape_watchlist`, over the stream of successive page
bodies: parse the current page, append its films, stop when it has no
next-page link, else fetch the next page.  Page fetching is strictly
sequential in the source (one `await client.get` per loop iteration). -/
def scrape_watchlist : List Page → List ScrapedFilm
  | [] => []
  | p :: rest =>
    let parsed := parse_watchlist_page p
    parsed.1 ++ (if parsed.2 then scrape_watchlist rest else [])

/-- Number of pages the `scrape_watchlist` loop fetches from a given
stream of page bodies. -/
def pagesFetched : List Page → Nat
  | [] => 0
  | p :: rest =>
    1 + (if (parse_watchlist_page p).2 then pagesFetched rest else 0)

/-- A film entry candidate yielded by the legacy strategy for one poster
container: `none` when no non-empty slug can be resolved. -/
def legacyCand (p : Poster) : Option ScrapedFilm :=
  let slug := legacySlug p
  if slug = "" then none else some ⟨slug, legacyTitle p slug⟩

/-- A film entry candidate yielded by the current strategy for one card. -/
def currentCand (c : Card) : Option ScrapedFilm :=
  let slug := currentSlug c
  if slug = "" then none else some ⟨slug, currentTitle c slug⟩

/-- All candidates of a page: legacy-strategy entries first, then
current-strategy entries, in document order. -/
def pageCandidates (page : Page) : List ScrapedFilm :=
  page.posters.filterMap legacyCand ++ page.cards.filterMap currentCand

/-- Deduplicate a candidate list by slug, keeping the first occurrence,
relative to an initial set of already-seen slugs.  Returns the kept films
and the final seen set. -/
def dedupAux : List ScrapedFilm → List String → List ScrapedFilm × List String
  | [], seen => ([], seen)
  | f :: rest, seen =>
    if f.slug ∈ seen then dedupAux rest seen
    else
      let r := dedupAux rest (f.slug :: seen)
      (f :: r.1, r.2)

lemma legacyFold_eq_cand (acc : List ScrapedFilm × List String) (p : Poster) :
    legacyFold acc p = match legacyCand p with
      | none => acc
      | some f => if f.slug ∈ acc.2 then acc
                  else (acc.1 ++ [f], f.slug :: acc.2) := by
  unfold legacyFold legacyCand
  by_cases h : legacySlug p = "" <;> simp [h]

lemma currentFold_eq_cand (acc : List ScrapedFilm × List String) (c : Card) :
    currentFold acc c = match currentCand c with
      | none => acc
      | some f => if f.slug ∈ acc.2 then acc
                  else (acc.1 ++ [f], f.slug :: acc.2) := by
  unfold currentFold currentCand
  by_cases h : currentSlug c = "" <;> simp [h]

lemma foldl_cand_dedup {α : Type} (cand : α → Option ScrapedFilm)
    (step : (List ScrapedFilm × List String) → α → (List ScrapedFilm × List String))
    (hstep : ∀ acc x, step acc x = match cand x with
      | none => acc
      | some f => if f.slug ∈ acc.2 then acc else (acc.1 ++ [f], f.slug :: acc.2)) :
    ∀ (l : List α) (films : List ScrapedFilm) (seen : List String),
      l.foldl step (films, seen) =
        (films ++ (dedupAux (l.filterMap cand) seen).1,
         (dedupAux (l.filterMap cand) seen).2) := by
  intro l
  induction l with
  | nil => intro films seen; simp [dedupAux]
  | cons x l ih =>
    intro films seen
    rw [List.foldl_cons, hstep]
    cases hc : cand x with
    | none => simp [hc, ih]
    | some f =>
      simp only [hc, List.filterMap_cons]
      by_cases hmem : f.slug ∈ seen
      · simp [dedupAux, hmem, ih]
      · simp [dedupAux, hmem, ih, List.append_assoc]

lemma dedupAux_append (l1 l2 : List ScrapedFilm) (seen : List String) :
    dedupAux (l1 ++ l2) seen =
      ((dedupAux l1 seen).1 ++ (dedupAux l2 (dedupAux l1 seen).2).1,
       (dedupAux l2 (dedupAux l1 seen).2).2) := by
  induction l1 generalizing seen with
  | nil => simp [dedupAux]
  | cons f l1 ih =>
    by_cases h : f.slug ∈ seen <;> simp [dedupAux, h, ih]

/-- `_parse_watchlist_page` is deduplication-by-slug (first occurrence
wins) of the page's candidate list: legacy-strategy entries followed by
current-strategy entries. -/
lemma parse_eq_dedup (page : Page) :
    parse_watchlist_page page =
      ((dedupAux (pageCandidates page) []).1, page.next_link) := by
  unfold parse_watchlist_page pageCandidates
  rw [foldl_cand_dedup legacyCand legacyFold legacyFold_eq_cand,
      foldl_cand_dedup currentCand currentFold currentFold_eq_cand,
      dedupAux_append]
  simp

lemma dedupAux_nodup (l : List ScrapedFilm) (seen : List String) :
    ((dedupAux l seen).1.map ScrapedFilm.slug).Nodup ∧
      ∀ x ∈ (dedupAux l seen).1, x.slug ∉ seen := by
  induction l generalizing seen with
  | nil => simp [dedupAux]
  | cons f l ih =>
    by_cases h : f.slug ∈ seen
    · simpa [dedupAux, h] using ih seen
    · have ih' := ih (f.slug :: seen)
      refine ⟨?_, ?_⟩
      · simp only [dedupAux, h, ite_false, if_neg, List.map_cons, List.nodup_cons]
        refine ⟨?_, ih'.1⟩
        intro hmem
        rcases List.mem_map.mp hmem with ⟨x, hx, hslug⟩
        exact ih'.2 x hx (by simp [hslug])
      · intro x hx
        simp only [dedupAux, h, ite_false, if_neg, List.mem_cons] at hx
        rcases hx with rfl | hx
        · exact h
        · intro hs; exact ih'.2 x hx (List.mem_cons_of_mem _ hs)

/-- Two successive pages that both carry the slug `"a"`; page 1 links to
page 2 (`a.next` present). -/
def dupPage1 : Page :=
  { posters := [{ data_film_slug := some "a", img := some { alt := some "Title One" } }],
    next_link := true }

/-- Second page of the duplicated-slug run. -/
def dupPage2 : Page :=
  { posters := [{ data_film_slug := some "a", img := some { alt := some "Title Two" } }],
    next_link := false }

/-- C6 counterexample: the per-page `seen_slugs` set is local to
`_parse_watchlist_page`, so a slug appearing on two different pages is
returned twice by the whole fetch run — the run's reference sequence is
not globally deduplicated. -/
theorem scrape_crosspage_duplicate :
    scrape_watchlist [dupPage1, dupPage2] =
      [⟨"a", "Title One"⟩, ⟨"a", "Title Two"⟩] ∧
    ¬ ((scrape_watchlist [dupPage1, dupPage2]).map ScrapedFilm.slug).Nodup := by
  constructor
  · decide
  · decide

/-- C6 (amended): within one page, each slug appears at most once and the
first-seen occurrence (legacy entries before current entries, in document
order) supplies the kept title: the parse equals first-wins slug
deduplication of the page's candidate list.  Across pages the run merely
concatenates per-page results, so cross-page duplicates survive. -/
theorem parse_page_dedup_first_wins (page : Page) :
    (parse_watchlist_page page).1 = (dedupAux (pageCandidates page) []).1 ∧
    ((parse_watchlist_page page).1.map ScrapedFilm.slug).Nodup := by
  refine ⟨by rw [parse_eq_dedup], ?_⟩
  rw [parse_eq_dedup]
  exact (dedupAux_nodup (pageCandidates page) []).1

/-- A page that encodes `(slug, title)` pairs only in legacy-strategy
markup: poster containers with `data-film-slug` and an `img` whose `alt`
is the title. -/
def legacyPageOf (pairs : List (String × String)) : Page :=
  { posters := pairs.map fun st =>
      { data_film_slug := some st.1, img := some { alt := some st.2 } },
    cards := [], next_link := false }

/-- The equivalent page encoding the same pairs only in current-strategy
markup: cards with `data-item-slug` and an `img` whose `alt` is the title. -/
def currentPageOf (pairs : List (String × String)) : Page :=
  { posters := [],
    cards := pairs.map fun st =>
      { data_item_slug := some st.1, img := some { alt := some st.2 } },
    next_link := false }

lemma cand_encoders_eq (s t : String) :
    legacyCand { data_film_slug := some s, img := some { alt := some t } } =
    currentCand { data_item_slug := some s, img := some { alt := some t } } := by
  unfold legacyCand currentCand legacySlug currentSlug legacyTitle currentTitle
  by_cases h : pyStrip s = ""
  · simp [h, stripSlashes, pySplitSlash, splitOnChar]
  · by_cases ht : t = "" <;> simp [h, ht]

/-- C8: parsing a page that encodes a set of `(slug, title)` pairs only in
legacy markup yields exactly the same reference sequence (slugs, titles,
order) as parsing the equivalent page encoding them only in current
markup. -/
theorem parse_markup_equivalence (pairs : List (String × String)) :
    parse_watchlist_page (legacyPageOf pairs) =
    parse_watchlist_page (currentPageOf pairs) := by
  rw [parse_eq_dedup, parse_eq_dedup]
  unfold pageCandidates legacyPageOf currentPageOf
  simp only [List.filterMap_nil, List.append_nil, List.nil_append,
    List.filterMap_map]
  have h : (legacyCand ∘ fun st : String × String =>
        ({ data_film_slug := some st.1, img := some { alt := some st.2 } } : Poster)) =
      (currentCand ∘ fun st : String × String =>
        ({ data_item_slug := some st.1, img := some { alt := some st.2 } } : Card)) :=
    funext fun st => cand_encoders_eq st.1 st.2
  rw [h]

/-- `tmdb.py` `TMDB_IMAGE_BASE`. -/
def TMDB_IMAGE_BASE : String := "https://image.tmdb.org/t/p"

/-- One entry of a detail response's `genres` list (`{id, name}`; only
`name` is read). -/
structure GenreEntry where
  name : String
deriving DecidableEq, Repr

/-- The fields of a TMDB movie-detail response that `get_movie_details`
reads (`poster_path`, `release_date`, `genres`); `none` models an absent
key (`dict.get`). -/
structure MovieData where
  poster_path : Option String := none
  release_date : Option String := none
  genres : List GenreEntry := []
deriving DecidableEq, Repr

/-- One provider entry of a watch-providers response's `flatrate` list. -/
structure ProviderEntry where
  provider_id : Nat
  provider_name : String
  logo_path : Option String := none
deriving DecidableEq, Repr

/-- A per-region entry of a watch-providers response (`flatrate`, `link`). -/
structure CountryData where
  flatrate : List ProviderEntry := []
  link : Option String := none
deriving DecidableEq, Repr

/-- A watch-providers response: its `results` region map, as an
association list keyed by region code. -/
structure ProvidersData where
  results : List (String × CountryData) := []
deriving DecidableEq, Repr

/-- Python `int(...)` on a string of ASCII digits. -/
def strToNat (s : String) : Nat :=
  s.toList.foldl (fun a c => 10 * a + (c.toNat - 48)) 0

/-- `tmdb.py` `get_movie_details`, pure part: given the two response
bodies (the fetches themselves are modelled as an `Except` outcome at the
call site), compute `(poster_url, year, genres, platforms, watch_link)`
exactly as lines 43-63 do, including every Python truthiness branch. -/
def get_movie_details (movie_data : MovieData) (providers_data : ProvidersData)
    (country : String) :
    Option String × Option Nat × List String × List StreamingPlatform ×
      Option String :=
  let poster_url : Option String :=
    match movie_data.poster_path with
    | some p => if p = "" then none else some (TMDB_IMAGE_BASE ++ "/w300" ++ p)
    | none => none
  let release_date := movie_data.release_date.getD ""
  let year : Option Nat :=
    if release_date ≠ "" ∧ 4 ≤ release_date.length ∧
        (release_date.toList.take 4).all Char.isDigit
    then some (strToNat (String.mk (release_date.toList.take 4)))
    else none
  let genres := movie_data.genres.map GenreEntry.name
  let country_data :=
    ((providers_data.results.find? (fun p => p.1 = country)).map Prod.snd).getD {}
  let platforms := country_data.flatrate.map fun p =>
    { provider_id := p.provider_id
      provider_name := p.provider_name
      logo_path := match p.logo_path with
        | some l => if l = "" then none else some (TMDB_IMAGE_BASE ++ "/w45" ++ l)
        | none => none : StreamingPlatform }
  (poster_url, year, genres, platforms, country_data.link)

instance {ε α : Type} [DecidableEq ε] [DecidableEq α] :
    DecidableEq (Except ε α) := fun a b =>
  match a, b with
  | .error e, .error f =>
    if h : e = f then isTrue (by rw [h])
    else isFalse (by intro hh; injection hh; contradiction)
  | .ok x, .ok y =>
    if h : x = y then isTrue (by rw [h])
    else isFalse (by intro hh; injection hh; contradiction)
  | .error _, .ok _ => isFalse (by intro hh; cases hh)
  | .ok _, .error _ => isFalse (by intro hh; cases hh)

/-- The network outcomes one reference's enrichment task can observe:
the search call (`search_movie`; an exception there is uncaught inside
the task) and the combined detail + watch-providers fetch
(`get_movie_details`; any exception there is caught by `_enrich_one`). -/
structure ItemOutcome where
  search : Except Unit (Option Nat)
  fetchDetails : Except Unit (MovieData × ProvidersData)
deriving DecidableEq, Repr

/-- `tmdb.py` `_enrich_one`: search; on no result a `not_found` Film, on
a caught detail/provider failure an `error` Film carrying the TMDB id, on
success a `found` Film; an uncaught search exception propagates
(`Except.error`). -/
def enrich_one (country now : String) (scraped : ScrapedFilm)
    (o : ItemOutcome) : Except Unit Film :=
  match o.search with
  | .error e => .error e
  | .ok none =>
    .ok { letterboxd_slug := scraped.slug, title := scraped.title
          tmdb_status := "not_found", country := some country
          last_checked := some now }
  | .ok (some tmdb_id) =>
    match o.fetchDetails with
    | .error _ =>
      .ok { letterboxd_slug := scraped.slug, title := scraped.title
            tmdb_id := some tmdb_id, tmdb_status := "error"
            country := some country, last_checked := some now }
    | .ok (movie_data, providers_data) =>
      let r := get_movie_details movie_data providers_data country
      .ok { letterboxd_slug := scraped.slug, title := scraped.title
            year := r.2.1, tmdb_id := some tmdb_id, tmdb_status := "found"
            poster_url := r.1, genres := r.2.2.1
            streaming_platforms := r.2.2.2.1, watch_link := r.2.2.2.2
            country := some country, last_checked := some now }

/-- `tmdb.py` lines 116-122: the Film built by `enrich_films` when a
task's exception reaches the `asyncio.gather(..., return_exceptions=True)`
result list (note: no `last_checked`). -/
def gatherFallback (scraped : ScrapedFilm) (country : String) : Film :=
  { letterboxd_slug := scraped.slug, title := scraped.title
    tmdb_status := "error", country := some country }

/-- The Film that ends up in the `enrich_films` mapping for one
reference: the task's result, or the gather fallback on an escaped
exception. -/
def itemFilm (country now : String) (scraped : ScrapedFilm)
    (o : ItemOutcome) : Film :=
  match enrich_one country now scraped o with
  | .ok f => f
  | .error _ => gatherFallback scraped country

/-- Python-dict insertion: overwrite the value at an existing key in
place, else append the new binding. -/
def dictInsert : List (String × Film) → String → Film → List (String × Film)
  | [], k, v => [(k, v)]
  | p :: rest, k, v =>
    if p.1 = k then (k, v) :: rest else p :: dictInsert rest k v

/-- Dictionary lookup over the association-list model. -/
def dictLookup (k : String) : List (String × Film) → Option Film
  | [] => none
  | p :: rest => if p.1 = k then some p.2 else dictLookup k rest

/-- The `for scraped, result in zip(scraped_films, results)` loop of
`enrich_films`, inserting one binding per reference in input order; `i`
indexes the per-task outcomes. -/
def enrichAux (country now : String) (oracle : Nat → ItemOutcome) :
    Nat → List ScrapedFilm → List (String × Film) → List (String × Film)
  | _, [], d => d
  | i, scraped :: rest, d =>
    enrichAux country now oracle (i + 1) rest
      (dictInsert d scraped.slug (itemFilm country now scraped (oracle i)))

/-- `tmdb.py` `enrich_films`: run every reference's task (outcomes given
by `oracle`, indexed by position) and build the slug → Film mapping. -/
def enrich_films (country now : String) (scraped_films : List ScrapedFilm)
    (oracle : Nat → ItemOutcome) : List (String × Film) :=
  enrichAux country now oracle 0 scraped_films []

/-- The resolution status `_enrich_one`/`enrich_films` assign for a given
pattern of network outcomes. -/
def expectedStatus (o : ItemOutcome) : String :=
  match o.search with
  | .error _ => "error"
  | .ok none => "not_found"
  | .ok (some _) =>
    match o.fetchDetails with
    | .error _ => "error"
    | .ok _ => "found"

/-- The last reference (with its input position, counting from `i`) in a
list whose slug is `k`. -/
def lastOccFrom (k : String) : Nat → List ScrapedFilm → Option (Nat × ScrapedFilm)
  | _, [] => none
  | i, scraped :: rest =>
    match lastOccFrom k (i + 1) rest with
    | some x => some x
    | none => if scraped.slug = k then some (i, scraped) else none

lemma itemFilm_slug (country now : String) (scraped : ScrapedFilm)
    (o : ItemOutcome) :
    (itemFilm country now scraped o).letterboxd_slug = scraped.slug := by
  rcases o with ⟨s, fd⟩
  unfold itemFilm enrich_one gatherFallback
  rcases s with e | id
  · rfl
  · rcases id with _ | tid
    · rfl
    · rcases fd with e | ⟨md, pd⟩ <;> rfl

lemma itemFilm_status (country now : String) (scraped : ScrapedFilm)
    (o : ItemOutcome) :
    (itemFilm country now scraped o).tmdb_status = expectedStatus o := by
  rcases o with ⟨s, fd⟩
  unfold itemFilm enrich_one gatherFallback expectedStatus
  rcases s with e | id
  · rfl
  · rcases id with _ | tid
    · rfl
    · rcases fd with e | ⟨md, pd⟩ <;> rfl

lemma itemFilm_tmdb_id (country now : String) (scraped : ScrapedFilm)
    (o : ItemOutcome) (tid : Nat) (h : o.search = .ok (some tid)) :
    (itemFilm country now scraped o).tmdb_id = some tid := by
  rcases o with ⟨s, fd⟩
  cases h
  unfold itemFilm enrich_one
  rcases fd with e | ⟨md, pd⟩ <;> rfl

lemma dictLookup_dictInsert (d : List (String × Film)) (k k' : String)
    (v : Film) :
    dictLookup k' (dictInsert d k v) =
      if k = k' then some v else dictLookup k' d := by
  induction d with
  | nil => by_cases h : k = k' <;> simp [dictInsert, dictLookup, h]
  | cons p rest ih =>
    by_cases hp : p.1 = k
    · by_cases h : k = k'
      · simp [dictInsert, dictLookup, hp, h]
      · have hpk' : ¬ p.1 = k' := fun hh => h (hp.symm.trans hh)
        simp [dictInsert, dictLookup, hp, h, hpk']
    · by_cases h1 : p.1 = k'
      · have hk : ¬ k = k' := fun hh => hp (h1.trans hh.symm)
        have hk2 : ¬ k' = k := fun hh => hk hh.symm
        simp [dictInsert, dictLookup, hp, h1, hk, hk2]
      · simp [dictInsert, dictLookup, hp, h1, ih]

lemma dictLookup_isSome_iff (d : List (String × Film)) (k : String) :
    (dictLookup k d).isSome ↔ k ∈ d.map Prod.fst := by
  induction d with
  | nil => simp [dictLookup]
  | cons p rest ih =>
    by_cases h : p.1 = k
    · simp [dictLookup, h]
    · simp only [dictLookup, if_neg h, List.map_cons, List.mem_cons]
      rw [ih]
      exact ⟨Or.inr, fun hor => hor.resolve_left (fun hh => h hh.symm)⟩

lemma keys_dictInsert (d : List (String × Film)) (k : String) (v : Film) :
    (dictInsert d k v).map Prod.fst =
      if k ∈ d.map Prod.fst then d.map Prod.fst
      else d.map Prod.fst ++ [k] := by
  induction d with
  | nil => simp [dictInsert]
  | cons p rest ih =>
    by_cases hp : p.1 = k
    · simp [dictInsert, hp]
    · have hp2 : ¬ k = p.1 := fun hh => hp hh.symm
      simp only [dictInsert, if_neg hp, List.map_cons, List.mem_cons]
      rw [ih]
      by_cases h : k ∈ rest.map Prod.fst <;> simp [h, hp2]

lemma mem_dictInsert (d : List (String × Film)) (k : String) (v : Film)
    (p : String × Film) (hp : p ∈ dictInsert d k v) :
    p = (k, v) ∨ p ∈ d := by
  induction d with
  | nil => simpa [dictInsert] using hp
  | cons q rest ih =>
    by_cases hq : q.1 = k
    · simp only [dictInsert, if_pos hq, List.mem_cons] at hp
      rcases hp with rfl | hp
      · exact Or.inl rfl
      · exact Or.inr (List.mem_cons_of_mem _ hp)
    · simp only [dictInsert, if_neg hq, List.mem_cons] at hp
      rcases hp with rfl | hp
      · exact Or.inr (List.mem_cons_self _ _)
      · rcases ih hp with h | h
        · exact Or.inl h
        · exact Or.inr (List.mem_cons_of_mem _ h)

lemma dictLookup_enrichAux (country now : String) (oracle : Nat → ItemOutcome)
    (k : String) :
    ∀ (rs : List ScrapedFilm) (i : Nat) (d : List (String × Film)),
      dictLookup k (enrichAux country now oracle i rs d) =
        match lastOccFrom k i rs with
        | some x => some (itemFilm country now x.2 (oracle x.1))
        | none => dictLookup k d := by
  intro rs
  induction rs with
  | nil => intro i d; simp [enrichAux, lastOccFrom]
  | cons r rest ih =>
    intro i d
    rw [enrichAux, ih]
    cases hlast : lastOccFrom k (i + 1) rest with
    | some x => simp [lastOccFrom, hlast]
    | none =>
      simp only [lastOccFrom, hlast]
      rw [dictLookup_dictInsert]
      by_cases h : r.slug = k <;> simp [h]

lemma lastOccFrom_isSome_iff (k : String) :
    ∀ (rs : List ScrapedFilm) (i : Nat),
      (lastOccFrom k i rs).isSome ↔ k ∈ rs.map ScrapedFilm.slug := by
  intro rs
  induction rs with
  | nil => intro i; simp [lastOccFrom]
  | cons r rest ih =>
    intro i
    simp only [lastOccFrom, List.map_cons, List.mem_cons]
    cases hlast : lastOccFrom k (i + 1) rest with
    | some x =>
      have hmem : k ∈ rest.map ScrapedFilm.slug := by
        rw [← ih (i + 1)]; simp [hlast]
      simp [hmem]
    | none =>
      have hmem : k ∉ rest.map ScrapedFilm.slug := by
        rw [← ih (i + 1)]; simp [hlast]
      by_cases h : r.slug = k
      · simp [h, hmem]
      · have h2 : ¬ k = r.slug := fun hh => h hh.symm
        simp [h, h2, hmem]

lemma enrichAux_keys_nodup (country now : String) (oracle : Nat → ItemOutcome) :
    ∀ (rs : List ScrapedFilm) (i : Nat) (d : List (String × Film)),
      (d.map Prod.fst).Nodup →
      ((enrichAux country now oracle i rs d).map Prod.fst).Nodup := by
  intro rs
  induction rs with
  | nil => intro i d hd; simpa [enrichAux] using hd
  | cons r rest ih =>
    intro i d hd
    rw [enrichAux]
    apply ih
    rw [keys_dictInsert]
    by_cases h : r.slug ∈ d.map Prod.fst
    · simpa [h] using hd
    · simp [h, List.nodup_append, hd]

lemma enrichAux_pairs_slug (country now : String) (oracle : Nat → ItemOutcome) :
    ∀ (rs : List ScrapedFilm) (i : Nat) (d : List (String × Film)),
      (∀ p ∈ d, (p.2).letterboxd_slug = p.1) →
      ∀ p ∈ enrichAux country now oracle i rs d, (p.2).letterboxd_slug = p.1 := by
  intro rs
  induction rs with
  | nil => intro i d hd; simpa [enrichAux] using hd
  | cons r rest ih =>
    intro i d hd
    rw [enrichAux]
    apply ih
    intro p hp
    rcases mem_dictInsert _ _ _ _ hp with rfl | hp
    · exact itemFilm_slug country now r (oracle i)
    · exact hd p hp

lemma lastOccFrom_nodup :
    ∀ (rs : List ScrapedFilm), (rs.map ScrapedFilm.slug).Nodup →
      ∀ (j i : Nat) (hi : i < rs.length),
        lastOccFrom (rs.get ⟨i, hi⟩).slug j rs = some (j + i, rs.get ⟨i, hi⟩) := by
  intro rs
  induction rs with
  | nil => intro _ j i hi; exact absurd hi (by simp)
  | cons r rest ih =>
    intro hnd j i hi
    rw [List.map_cons, List.nodup_cons] at hnd
    obtain ⟨hr, hrest⟩ := hnd
    match i with
    | 0 =>
      have hnone : lastOccFrom r.slug (j + 1) rest = none := by
        cases hl : lastOccFrom r.slug (j + 1) rest with
        | none => rfl
        | some x =>
          exact absurd ((lastOccFrom_isSome_iff r.slug rest (j + 1)).mp
            (by simp [hl])) hr
      simp [lastOccFrom, hnone]
    | i' + 1 =>
      have hi' : i' < rest.length := by simpa using hi
      have hrec := ih hrest (j + 1) i' hi'
      have harith : j + (i' + 1) = (j + 1) + i' := by omega
      simp only [List.get_cons_succ]
      rw [lastOccFrom, hrec]
      simp [harith]

lemma toFinset_card_lt_of_not_nodup :
    ∀ (l : List String), ¬ l.Nodup → l.toFinset.card < l.length := by
  intro l
  induction l with
  | nil => intro h; exact absurd List.nodup_nil h
  | cons a t ih =>
    intro h
    by_cases ha : a ∈ t
    · have he : (a :: t).toFinset = t.toFinset := by
        simp [List.toFinset_cons, Finset.insert_eq_self.mpr (List.mem_toFinset.mpr ha)]
      rw [he]
      calc t.toFinset.card ≤ t.length := List.toFinset_card_le t
        _ < (a :: t).length := by simp only [List.length_cons]; omega
    · have ht : ¬ t.Nodup := by simpa [List.nodup_cons, ha] using h
      have ihh := ih ht
      calc (a :: t).toFinset.card ≤ t.toFinset.card + 1 := by
            simpa [List.toFinset_cons] using Finset.card_insert_le a t.toFinset
        _ < t.length + 1 := by omega
        _ = (a :: t).length := by simp

/-- The mapping `enrich_films` produces: each key is bound to the Film of
the last input reference carrying that slug. -/
lemma enrich_films_lookup (country now : String) (scraped : List ScrapedFilm)
    (oracle : Nat → ItemOutcome) (k : String) :
    dictLookup k (enrich_films country now scraped oracle) =
      (lastOccFrom k 0 scraped).map
        (fun x => itemFilm country now x.2 (oracle x.1)) := by
  rw [enrich_films, dictLookup_enrichAux]
  cases hl : lastOccFrom k 0 scraped <;> simp [hl, dictLookup]

lemma enrich_films_keys_iff (country now : String) (scraped : List ScrapedFilm)
    (oracle : Nat → ItemOutcome) (k : String) :
    (dictLookup k (enrich_films country now scraped oracle)).isSome ↔
      k ∈ scraped.map ScrapedFilm.slug := by
  rw [enrich_films_lookup, ← lastOccFrom_isSome_iff k scraped 0]
  cases lastOccFrom k 0 scraped <;> simp

lemma enrich_films_keys_nodup (country now : String)
    (scraped : List ScrapedFilm) (oracle : Nat → ItemOutcome) :
    ((enrich_films country now scraped oracle).map Prod.fst).Nodup :=
  enrichAux_keys_nodup country now oracle scraped 0 [] (by simp)

/-- Detail-response body used by the concrete witnesses (the spec's
Oppenheimer example). -/
def wMovieData : MovieData :=
  { poster_path := some "/oppenheimer.jpg"
    release_date := some "2023-07-21"
    genres := [⟨"Drama"⟩, ⟨"History"⟩] }

/-- Watch-providers response body used by the concrete witnesses. -/
def wProvidersData : ProvidersData :=
  { results := [("GB",
      { flatrate := [{ provider_id := 8, provider_name := "Netflix",
                       logo_path := some "/netflix.png" }]
        link := some "https://www.themoviedb.org/movie/872585/watch?locale=GB" })] }

/-- Three references whose lookups succeed, find nothing, and blow up,
respectively. -/
def wScraped : List ScrapedFilm :=
  [⟨"oppenheimer-2023", "Oppenheimer"⟩, ⟨"unknown-xyz", "Unknown XYZ"⟩,
   ⟨"dune-2021", "Dune"⟩]

/-- Per-task outcomes for `wScraped`: a found film, an empty search, and
an uncaught search exception. -/
def wOracle : Nat → ItemOutcome
  | 0 => { search := .ok (some 872585)
           fetchDetails := .ok (wMovieData, wProvidersData) }
  | 1 => { search := .ok none, fetchDetails := .ok ({}, {}) }
  | _ => { search := .error (), fetchDetails := .error () }

/-- C2: for every list of references and every pattern of per-item lookup
failures, `enrich_films` returns a total mapping: every input slug is
bound (and bound once); the Film built for a reference carries status
`not_found` when its search returned no result, `error` when some
exception occurred (with `tmdb_id` set whenever the search had produced
an id, in particular when the detail/provider fetch failed), and `found`
otherwise — an uncaught per-task exception still yields an error-tagged
Film instead of aborting the batch. -/
theorem enrich_films_isolation (country now : String)
    (scraped : List ScrapedFilm) (oracle : Nat → ItemOutcome) :
    (∀ s : String,
      (dictLookup s (enrich_films country now scraped oracle)).isSome ↔
        s ∈ scraped.map ScrapedFilm.slug) ∧
    ((enrich_films country now scraped oracle).map Prod.fst).Nodup ∧
    (∀ (r : ScrapedFilm) (o : ItemOutcome),
      (itemFilm country now r o).tmdb_status = expectedStatus o ∧
      ∀ tid : Nat, o.search = .ok (some tid) →
        (itemFilm country now r o).tmdb_id = some tid) ∧
    ((scraped.map ScrapedFilm.slug).Nodup →
      ∀ (i : Nat) (hi : i < scraped.length),
        dictLookup (scraped.get ⟨i, hi⟩).slug
            (enrich_films country now scraped oracle) =
          some (itemFilm country now (scraped.get ⟨i, hi⟩) (oracle i))) := by
  refine ⟨enrich_films_keys_iff country now scraped oracle,
    enrich_films_keys_nodup country now scraped oracle,
    fun r o => ⟨itemFilm_status country now r o,
      fun tid h => itemFilm_tmdb_id country now r o tid h⟩,
    fun hnd i hi => ?_⟩
  rw [enrich_films_lookup, lastOccFrom_nodup scraped hnd 0 i hi]
  simp

theorem enrich_films_isolation_witness :
    (wScraped.map ScrapedFilm.slug).Nodup ∧
    (wOracle 0).search = Except.ok (some 872585) ∧
    dictLookup (wScraped.get ⟨1, by decide⟩).slug
        (enrich_films "GB" "t0" wScraped wOracle) =
      some (itemFilm "GB" "t0" (wScraped.get ⟨1, by decide⟩) (wOracle 1)) ∧
    (itemFilm "GB" "t0" ⟨"oppenheimer-2023", "Oppenheimer"⟩
        (wOracle 0)).tmdb_id = some 872585 :=
  ⟨by decide, by decide,
   (enrich_films_isolation "GB" "t0" wScraped wOracle).2.2.2 (by decide) 1
     (by decide),
   ((enrich_films_isolation "GB" "t0" wScraped wOracle).2.2.1
      ⟨"oppenheimer-2023", "Oppenheimer"⟩ (wOracle 0)).2 872585 (by decide)⟩

/-- Input with a duplicated slug (`"a"` at positions 0 and 2), as the
Fetcher can produce across pages. -/
def wDup : List ScrapedFilm := [⟨"a", "A1"⟩, ⟨"b", "B"⟩, ⟨"a", "A2"⟩]

/-- C10: when the reference list passed to `enrich_films` repeats a slug,
the returned mapping still binds that slug exactly once, to the Film
produced for the *last* such reference in input order (dict insertion
overwrites), so the mapping — and hence the set of rows a refresh
persists — is strictly smaller than the scraped reference list. -/
theorem enrich_films_duplicate_last_wins (country now : String)
    (scraped : List ScrapedFilm) (oracle : Nat → ItemOutcome)
    (i j : Nat) (hij : i < j) (hj : j < scraped.length)
    (hdup : (scraped.get ⟨i, Nat.lt_trans hij hj⟩).slug =
            (scraped.get ⟨j, hj⟩).slug) :
    ((enrich_films country now scraped oracle).map Prod.fst).Nodup ∧
    (∀ k : String,
      dictLookup k (enrich_films country now scraped oracle) =
        (lastOccFrom k 0 scraped).map
          (fun x => itemFilm country now x.2 (oracle x.1))) ∧
    (enrich_films country now scraped oracle).length < scraped.length := by
  refine ⟨enrich_films_keys_nodup country now scraped oracle,
    fun k => enrich_films_lookup country now scraped oracle k, ?_⟩
  have hkeysnd := enrich_films_keys_nodup country now scraped oracle
  have hsetk : ((enrich_films country now scraped oracle).map
      Prod.fst).toFinset = (scraped.map ScrapedFilm.slug).toFinset := by
    apply List.toFinset.ext
    intro s
    rw [← dictLookup_isSome_iff]
    exact enrich_films_keys_iff country now scraped oracle s
  have hnd : ¬ (scraped.map ScrapedFilm.slug).Nodup := by
    intro hn
    have h1 : i < (scraped.map ScrapedFilm.slug).length := by
      simpa using Nat.lt_trans hij hj
    have h2 : j < (scraped.map ScrapedFilm.slug).length := by simpa using hj
    have hget : (scraped.map ScrapedFilm.slug).get ⟨i, h1⟩ =
        (scraped.map ScrapedFilm.slug).get ⟨j, h2⟩ := by
      simp only [List.get_eq_getElem, List.getElem_map]
      simpa [List.get_eq_getElem] using hdup
    have hfin := (List.Nodup.get_inj_iff hn).mp hget
    have : i = j := by simpa using hfin
    omega
  calc (enrich_films country now scraped oracle).length
      = ((enrich_films country now scraped oracle).map Prod.fst).length := by
        simp
    _ = ((enrich_films country now scraped oracle).map
          Prod.fst).toFinset.card := (List.toFinset_card_of_nodup hkeysnd).symm
    _ = (scraped.map ScrapedFilm.slug).toFinset.card := by rw [hsetk]
    _ < (scraped.map ScrapedFilm.slug).length :=
        toFinset_card_lt_of_not_nodup _ hnd
    _ = scraped.length := by simp

theorem enrich_films_duplicate_last_wins_witness :
    ((0 : Nat) < 2 ∧ 2 < wDup.length ∧
      (wDup.get ⟨0, by decide⟩).slug = (wDup.get ⟨2, by decide⟩).slug) ∧
    (enrich_films "GB" "t0" wDup wOracle).length < wDup.length :=
  ⟨⟨by decide, by decide, by decide⟩,
   (enrich_films_duplicate_last_wins "GB" "t0" wDup wOracle 0 2 (by decide)
      (by decide) (by decide)).2.2⟩

lemma get_movie_details_year_eq (movie_data : MovieData)
    (providers_data : ProvidersData) (country : String) :
    (get_movie_details movie_data providers_data country).2.1 =
      (if (movie_data.release_date.getD "") ≠ "" ∧
          4 ≤ (movie_data.release_date.getD "").length ∧
          ((movie_data.release_date.getD "").toList.take 4).all Char.isDigit
       then some (strToNat
          (String.mk ((movie_data.release_date.getD "").toList.take 4)))
       else none) := rfl

/-- C9: for a successful detail fetch, the Film's year is the integer
denoted by the first 4 characters of the release-date string exactly when
those characters are all digits (which requires the string to have at
least 4 characters — so absent, empty, or short dates give `None`), and
`None` otherwise. -/
theorem get_movie_details_year (movie_data : MovieData)
    (providers_data : ProvidersData) (country : String) (n : Nat) :
    (get_movie_details movie_data providers_data country).2.1 = some n ↔
      (4 ≤ (movie_data.release_date.getD "").length ∧
       ((movie_data.release_date.getD "").toList.take 4).all Char.isDigit ∧
       n = strToNat
         (String.mk ((movie_data.release_date.getD "").toList.take 4))) := by
  rw [get_movie_details_year_eq]
  by_cases h4 : 4 ≤ (movie_data.release_date.getD "").length
  · have hne : movie_data.release_date.getD "" ≠ "" := by
      intro he
      rw [he] at h4
      exact (by decide : ¬ (4 ≤ ("" : String).length)) h4
    by_cases hd : ((movie_data.release_date.getD "").toList.take 4).all
        Char.isDigit
    · rw [if_pos ⟨hne, h4, hd⟩, Option.some_inj]
      constructor
      · intro h; exact ⟨h4, hd, h.symm⟩
      · rintro ⟨-, -, h⟩; exact h.symm
    · rw [if_neg (fun hcon => hd hcon.2.2)]
      constructor
      · intro h; cases h
      · rintro ⟨-, hdd, -⟩; exact absurd hdd hd
  · rw [if_neg (fun hcon => h4 hcon.2.1)]
    constructor
    · intro h; cases h
    · rintro ⟨hh, -, -⟩; exact absurd hh h4

/-- C7: over a stream of page bodies whose first `k` pages have a
next-page link and whose page `k` lacks one, the fetch loop performs
exactly `k + 1` page fetches — it stops at the first page with no next
link and every next-link page triggers exactly one further fetch — and
the run's result is the in-order concatenation of the parses of exactly
that prefix of pages (pages are consumed strictly one at a time in
increasing order). -/
theorem scrape_pagination_termination (pages : List Page) (k : Nat)
    (hk : k < pages.length)
    (hnext : ∀ i, i < k → ((pages.get? i).map Page.next_link) = some true)
    (hstop : ((pages.get? k).map Page.next_link) = some false) :
    pagesFetched pages = k + 1 ∧
    scrape_watchlist pages =
      ((pages.take (k + 1)).map (fun p => (parse_watchlist_page p).1)).flatten := by
  induction pages generalizing k with
  | nil => simp at hk
  | cons p rest ih =>
    match k with
    | 0 =>
      have hp : p.next_link = false := by simpa using hstop
      have hp2 : (parse_watchlist_page p).2 = false := hp
      constructor
      · simp [pagesFetched, hp2]
      · simp [scrape_watchlist, hp2]
    | k' + 1 =>
      have hp : p.next_link = true := by
        have h0 := hnext 0 (Nat.succ_pos k')
        simpa using h0
      have hp2 : (parse_watchlist_page p).2 = true := hp
      have hk' : k' < rest.length := by simpa using hk
      have hnext' : ∀ i, i < k' →
          ((rest.get? i).map Page.next_link) = some true := by
        intro i hi
        have h1 := hnext (i + 1) (by omega)
        simpa using h1
      have hstop' : ((rest.get? k').map Page.next_link) = some false := by
        simpa using hstop
      obtain ⟨ih1, ih2⟩ := ih k' hk' hnext' hstop'
      constructor
      · simp only [pagesFetched, hp2, if_pos, ih1]
        omega
      · simp [scrape_watchlist, hp2, ih2]

/-- A two-page stream: page 1 has a next-page link, page 2 does not. -/
def wPages : List Page := [{ next_link := true }, { next_link := false }]

theorem scrape_pagination_termination_witness :
    (1 < wPages.length ∧
      (∀ i, i < 1 → ((wPages.get? i).map Page.next_link) = some true) ∧
      ((wPages.get? 1).map Page.next_link) = some false) ∧
    pagesFetched wPages = 2 :=
  ⟨⟨by decide, by decide, by decide⟩,
   (scrape_pagination_termination wPages 1 (by decide) (by decide)
      (by decide)).1⟩

/-- `database.py` `upsert_film`: `INSERT ... ON CONFLICT(letterboxd_slug)
DO UPDATE SET <all columns>` — keyed by `letterboxd_slug`, full-column
overwrite in place (the row keeps its `id`), append when absent. -/
def upsert_film (film : Film) : List Film → List Film
  | [] => [film]
  | g :: rest =>
    if g.letterboxd_slug = film.letterboxd_slug
    then { film with id := g.id } :: rest
    else g :: upsert_film film rest

/-- Modelled from the spec: `delete_films_not_in_watchlist` is called by
`scheduler.py` (`run_refresh`, reconcile step) but its definition is
absent from `src/database.py`; the spec's Store contract specifies
`deleteNotIn(stableIds)` — delete every stored Entity whose `stableId`
is not present in the given reference set. -/
def delete_films_not_in_watchlist (slugs : List String)
    (store : List Film) : List Film :=
  store.filter (fun f => f.letterboxd_slug ∈ slugs)

/-- The orchestrator-visible state: the `is_refreshing` flag and the
persistent store (rows in table order). -/
structure OrchState where
  is_refreshing : Bool
  store : List Film
deriving DecidableEq, Repr

/-- `scheduler.py` `run_refresh`: skip when a refresh is in flight, else
set the flag and run scrape → enrich → upsert-all → delete-not-in-scrape,
clearing the flag on every exit path (the `try/finally`); a scrape
failure propagates (`Except.error`) after clearing the flag and without
touching the store. -/
def run_refresh (st : OrchState) (country now : String)
    (scrapeResult : Except Unit (List ScrapedFilm))
    (oracle : Nat → ItemOutcome) : Except Unit Bool × OrchState :=
  if st.is_refreshing then (.ok false, st)
  else
    match scrapeResult with
    | .error e => (.error e, { is_refreshing := false, store := st.store })
    | .ok scraped =>
      let enriched := enrich_films country now scraped oracle
      let store1 := (enriched.map Prod.snd).foldl
        (fun s f => upsert_film f s) st.store
      let store2 := delete_films_not_in_watchlist
        (scraped.map ScrapedFilm.slug) store1
      (.ok true, { is_refreshing := false, store := store2 })

lemma store_slugs_upsert (film : Film) (st : List Film) (s : String) :
    s ∈ (upsert_film film st).map Film.letterboxd_slug ↔
      s = film.letterboxd_slug ∨ s ∈ st.map Film.letterboxd_slug := by
  induction st with
  | nil => simp [upsert_film]
  | cons g rest ih =>
    by_cases h : g.letterboxd_slug = film.letterboxd_slug
    · simp [upsert_film, h]
    · simp only [upsert_film, if_neg h, List.map_cons, List.mem_cons, ih]
      tauto

lemma store_slugs_fold_upsert (films : List Film) (s : String) :
    ∀ st : List Film,
      s ∈ ((films.foldl (fun acc f => upsert_film f acc) st).map
            Film.letterboxd_slug) ↔
        s ∈ films.map Film.letterboxd_slug ∨
          s ∈ st.map Film.letterboxd_slug := by
  induction films with
  | nil => intro st; simp
  | cons f films ih =>
    intro st
    rw [List.foldl_cons, ih]
    rw [store_slugs_upsert]
    simp only [List.map_cons, List.mem_cons]
    tauto

lemma store_slugs_delete (slugs : List String) (store : List Film)
    (s : String) :
    s ∈ (delete_films_not_in_watchlist slugs store).map
          Film.letterboxd_slug ↔
      s ∈ store.map Film.letterboxd_slug ∧ s ∈ slugs := by
  simp only [delete_films_not_in_watchlist, List.mem_map, List.mem_filter]
  constructor
  · rintro ⟨f, ⟨hf, hin⟩, rfl⟩
    exact ⟨⟨f, hf, rfl⟩, by simpa using hin⟩
  · rintro ⟨⟨f, hf, rfl⟩, hs⟩
    exact ⟨f, ⟨hf, by simpa using hs⟩, rfl⟩

lemma enrich_values_slugs (country now : String) (scraped : List ScrapedFilm)
    (oracle : Nat → ItemOutcome) (s : String) :
    s ∈ ((enrich_films country now scraped oracle).map Prod.snd).map
          Film.letterboxd_slug ↔
      s ∈ (enrich_films country now scraped oracle).map Prod.fst := by
  simp only [List.map_map, List.mem_map, Function.comp]
  constructor
  · rintro ⟨p, hp, rfl⟩
    exact ⟨p, hp, (enrichAux_pairs_slug country now oracle scraped 0 []
      (by simp) p hp).symm⟩
  · rintro ⟨p, hp, rfl⟩
    exact ⟨p, hp, enrichAux_pairs_slug country now oracle scraped 0 []
      (by simp) p hp⟩

/-- C3: a run whose scrape fails (after an `Idle → Refreshing` transition
that succeeded) propagates the failure to the caller, performs no store
mutation at all, and still finishes with the `is_refreshing` flag
cleared. -/
theorem run_refresh_scrape_failure (st : OrchState) (country now : String)
    (e : Unit) (oracle : Nat → ItemOutcome)
    (hidle : st.is_refreshing = false) :
    run_refresh st country now (.error e) oracle =
      (.error e, { is_refreshing := false, store := st.store }) ∧
    (run_refresh st country now (.error e) oracle).2.store = st.store ∧
    (run_refresh st country now (.error e) oracle).2.is_refreshing = false := by
  simp [run_refresh, hidle]

/-- A store with a single prior row, for the witnesses. -/
def wStore : List Film := [{ letterboxd_slug := "b", title := "B" }]

theorem run_refresh_scrape_failure_witness :
    (OrchState.mk false wStore).is_refreshing = false ∧
    ((run_refresh ⟨false, wStore⟩ "GB" "t0" (.error ()) wOracle).2.store =
        wStore ∧
     (run_refresh ⟨false, wStore⟩ "GB" "t0"
        (.error ()) wOracle).2.is_refreshing = false) :=
  ⟨rfl,
   (run_refresh_scrape_failure ⟨false, wStore⟩ "GB" "t0" () wOracle rfl).2⟩

/-- C1: a successful run reconciles the store against the reference set
scraped in the *same* run (`[film.slug for film in scraped]`, not the
Enricher's output keys): afterwards the store holds exactly the slugs of
that scrape — whatever the per-item enrichment outcomes were, so
`not_found`/`error` references are retained as rows — and everything
previously stored but no longer scraped is gone. -/
theorem run_refresh_reconciliation (st : OrchState) (country now : String)
    (scraped : List ScrapedFilm) (oracle : Nat → ItemOutcome)
    (hidle : st.is_refreshing = false) :
    (run_refresh st country now (.ok scraped) oracle).1 = .ok true ∧
    (run_refresh st country now (.ok scraped) oracle).2.is_refreshing
      = false ∧
    (∀ s : String,
      s ∈ ((run_refresh st country now (.ok scraped) oracle).2.store.map
            Film.letterboxd_slug) ↔ s ∈ scraped.map ScrapedFilm.slug) := by
  refine ⟨by simp [run_refresh, hidle], by simp [run_refresh, hidle],
    fun s => ?_⟩
  simp only [run_refresh, hidle, Bool.false_eq_true, if_false]
  rw [store_slugs_delete, store_slugs_fold_upsert, enrich_values_slugs]
  have hkeys : s ∈ (enrich_films country now scraped oracle).map Prod.fst ↔
      s ∈ scraped.map ScrapedFilm.slug := by
    rw [← dictLookup_isSome_iff]
    exact enrich_films_keys_iff country now scraped oracle s
  rw [hkeys]
  tauto

/-- A store holding rows for slugs `a`, `b`, `c`. -/
def wStoreABC : List Film :=
  [{ letterboxd_slug := "a", title := "A" },
   { letterboxd_slug := "b", title := "B" },
   { letterboxd_slug := "c", title := "C" }]

/-- A scrape that returned only `a` and `c`. -/
def wScrapedAC : List ScrapedFilm := [⟨"a", "A"⟩, ⟨"c", "C"⟩]

theorem run_refresh_reconciliation_witness :
    (OrchState.mk false wStoreABC).is_refreshing = false ∧
    ("b" ∈ ((run_refresh ⟨false, wStoreABC⟩ "GB" "t0" (.ok wScrapedAC)
        wOracle).2.store.map Film.letterboxd_slug) ↔
      "b" ∈ wScrapedAC.map ScrapedFilm.slug) :=
  ⟨rfl,
   (run_refresh_reconciliation ⟨false, wStoreABC⟩ "GB" "t0" wScrapedAC
      wOracle rfl).2.2 "b"⟩

/-- Program counter of one `run_refresh` invocation, at the granularity
of the event loop's suspension points.  The guard block (`scheduler.py`
lines 29-36: fast flag check, `async with _refresh_lock`, re-check, flag
set, release) contains no `await` that can suspend — the asyncio lock is
only ever held across suspension-free code, so acquiring it never
blocks — hence the whole block executes as one atomic step (`prologue`).
`pipeline` is the suspending scrape/enrich/store body; its completion
runs the `finally` (flag cleared, `True` returned). -/
inductive RPC
  | prologue
  | pipeline
  | finished
deriving DecidableEq, Repr, Fintype

/-- One invocation: its program counter and its returned value (if any). -/
structure RProc where
  pc : RPC
  ret : Option Bool
deriving DecidableEq, Repr, Fintype

/-- The process state two concurrent `run_refresh` invocations share:
the module-level `is_refreshing` flag and both coroutines. -/
structure RSys where
  is_refreshing : Bool
  p0 : RProc
  p1 : RProc
deriving DecidableEq, Repr, Fintype

/-- One step of one invocation: the prologue returns `False` immediately
when the flag is set, else sets the flag and enters the pipeline; the
pipeline's completion clears the flag and returns `True`. -/
def procStep (flag : Bool) (pr : RProc) : Bool × RProc :=
  match pr.pc with
  | .prologue =>
    if flag then (flag, ⟨.finished, some false⟩)
    else (true, ⟨.pipeline, pr.ret⟩)
  | .pipeline => (false, ⟨.finished, some true⟩)
  | .finished => (flag, pr)

/-- Select one of the two invocations. -/
def procOf (s : RSys) (i : Bool) : RProc := if i then s.p1 else s.p0

/-- Scheduler step: let invocation `i` run to its next suspension point. -/
def stepR (s : RSys) (i : Bool) : RSys :=
  let r := procStep s.is_refreshing (procOf s i)
  if i then { s with is_refreshing := r.1, p1 := r.2 }
  else { s with is_refreshing := r.1, p0 := r.2 }

/-- Both invocations about to run, flag clear. -/
def initR : RSys := ⟨false, ⟨.prologue, none⟩, ⟨.prologue, none⟩⟩

/-- Run a schedule (list of which invocation steps next) from `initR`. -/
def runR (sched : List Bool) : RSys := sched.foldl stepR initR

/-- A step is part of a *simultaneous* pair of invocations when an
invocation only starts (runs its prologue) while the other has not
already finished — i.e. the two calls overlap in time. -/
def allowedStep (i : Bool) (s : RSys) : Prop :=
  (procOf s i).pc = RPC.prologue → (procOf s (!i)).pc ≠ RPC.finished

instance (i : Bool) (s : RSys) : Decidable (allowedStep i s) := by
  unfold allowedStep; infer_instance

/-- A schedule of two simultaneous invocations: every scheduled prologue
runs while the other invocation is unfinished. -/
def Simul (sched : List Bool) : Prop :=
  ∀ k, (h : k < sched.length) →
    allowedStep (sched.get ⟨k, h⟩) (runR (sched.take k))

instance (sched : List Bool) : Decidable (Simul sched) := by
  unfold Simul; exact Nat.decidableBallLT _ _

/-- Structural invariant: the flag is set exactly while one invocation is
inside the pipeline, never both are, and an invocation has returned
exactly when it is finished. -/
def BasicInv (s : RSys) : Prop :=
  (s.is_refreshing = true ↔
    (s.p0.pc = RPC.pipeline ∨ s.p1.pc = RPC.pipeline)) ∧
  ¬ (s.p0.pc = RPC.pipeline ∧ s.p1.pc = RPC.pipeline) ∧
  (s.p0.pc = RPC.finished ↔ (s.p0.ret).isSome) ∧
  (s.p1.pc = RPC.finished ↔ (s.p1.ret).isSome)

instance (s : RSys) : Decidable (BasicInv s) := by
  unfold BasicInv; infer_instance

/-- Invariant for simultaneous runs: additionally, `True` is never
returned twice (nor returned while the other invocation is mid-pipeline),
and `False` is never returned by both. -/
def GoodInv (s : RSys) : Prop :=
  BasicInv s ∧
  ¬ (s.p0.ret = some true ∧
      (s.p1.pc = RPC.pipeline ∨ s.p1.ret = some true)) ∧
  ¬ (s.p1.ret = some true ∧
      (s.p0.pc = RPC.pipeline ∨ s.p0.ret = some true)) ∧
  ¬ (s.p0.ret = some false ∧ s.p1.ret = some false)

instance (s : RSys) : Decidable (GoodInv s) := by
  unfold GoodInv; infer_instance

set_option maxRecDepth 8000 in
lemma stepR_preserves_basic :
    ∀ (s : RSys) (i : Bool), BasicInv s → BasicInv (stepR s i) := by decide

set_option maxRecDepth 8000 in
lemma stepR_preserves_good :
    ∀ (s : RSys) (i : Bool), GoodInv s → allowedStep i s →
      GoodInv (stepR s i) := by decide

set_option maxRecDepth 8000 in
lemma good_final :
    ∀ s : RSys, GoodInv s → s.p0.pc = RPC.finished →
      s.p1.pc = RPC.finished →
      ((s.p0.ret = some true ∧ s.p1.ret = some false) ∨
       (s.p0.ret = some false ∧ s.p1.ret = some true)) := by decide

lemma runR_append (sched : List Bool) (i : Bool) :
    runR (sched ++ [i]) = stepR (runR sched) i := by
  simp [runR, List.foldl_append]

lemma Simul_append (sched : List Bool) (i : Bool)
    (h : Simul (sched ++ [i])) :
    Simul sched ∧ allowedStep i (runR sched) := by
  constructor
  · intro k hk
    have hk2 : k < (sched ++ [i]).length := by
      simp only [List.length_append, List.length_singleton]; omega
    have hstep := h k hk2
    rwa [List.get_append k hk, List.take_append_of_le_length (by omega)]
      at hstep
  · have hk2 : sched.length < (sched ++ [i]).length := by simp
    have hstep := h sched.length hk2
    have hget : (sched ++ [i]).get ⟨sched.length, hk2⟩ = i := by
      simp [List.get_eq_getElem, List.getElem_concat_length]
    rwa [hget, List.take_left] at hstep

lemma runR_basic (sched : List Bool) : BasicInv (runR sched) := by
  induction sched using List.reverseRecOn with
  | nil => decide
  | append_singleton l a ih =>
    rw [runR_append]
    exact stepR_preserves_basic _ _ ih

lemma runR_good (sched : List Bool) (h : Simul sched) :
    GoodInv (runR sched) := by
  induction sched using List.reverseRecOn with
  | nil => decide
  | append_singleton l a ih =>
    obtain ⟨hs, ha⟩ := Simul_append l a h
    rw [runR_append]
    exact stepR_preserves_good _ _ (ih hs) ha

set_option maxRecDepth 8000 in
/-- C4: for two simultaneous `run_refresh` invocations (any interleaving
in which each invocation starts while the other is unfinished), if both
finish then exactly one returned `True` and the other `False`; at no
point of any schedule are both invocations inside the pipeline; and a
rejected invocation finishes with `False` in its very first step — it
never waits for the in-progress run. -/
theorem run_refresh_exclusive (sched : List Bool) (hs : Simul sched) :
    ((runR sched).p0.pc = RPC.finished →
     (runR sched).p1.pc = RPC.finished →
      (((runR sched).p0.ret = some true ∧
        (runR sched).p1.ret = some false) ∨
       ((runR sched).p0.ret = some false ∧
        (runR sched).p1.ret = some true))) ∧
    (∀ k : Nat, ¬ ((runR (sched.take k)).p0.pc = RPC.pipeline ∧
                   (runR (sched.take k)).p1.pc = RPC.pipeline)) ∧
    (∀ (s : RSys) (i : Bool), s.is_refreshing = true →
      (procOf s i).pc = RPC.prologue →
      ((procOf (stepR s i) i).pc = RPC.finished ∧
       (procOf (stepR s i) i).ret = some false)) :=
  ⟨fun h0 h1 => good_final _ (runR_good sched hs) h0 h1,
   fun k => (runR_basic (sched.take k)).2.1,
   by decide⟩

theorem run_refresh_exclusive_witness :
    Simul [false, true, false] ∧
    (((runR [false, true, false]).p0.ret = some true ∧
      (runR [false, true, false]).p1.ret = some false) ∨
     ((runR [false, true, false]).p0.ret = some false ∧
      (runR [false, true, false]).p1.ret = some true)) :=
  ⟨by decide,
   (run_refresh_exclusive [false, true, false] (by decide)).1
     (by decide) (by decide)⟩

/-- Phases of one reference's enrichment task on the found path
(`tmdb.py`), at the granularity of semaphore and request events:
`search_movie` (lines 18-22) holds one `_semaphore` permit around its
single request; `get_movie_details` (lines 32-39) holds ONE permit around
an `asyncio.gather` of TWO simultaneous requests (movie detail and watch
providers).  A request completion resumes suspension-free code up to the
with-block exit, so completion and permit release are one step. -/
inductive TPh
  | start
  | sAcq
  | sReq
  | sDone
  | dAcq
  | dReq1
  | dReq2
  | dEnd1
  | tFin
deriving DecidableEq, Repr, Fintype

/-- Semaphore permits a task holds in each phase. -/
def tphHolds : TPh → Nat
  | .start => 0 | .sAcq => 1 | .sReq => 1 | .sDone => 0
  | .dAcq => 1 | .dReq1 => 1 | .dReq2 => 1 | .dEnd1 => 1 | .tFin => 0

/-- Outbound catalog requests a task has in flight in each phase. -/
def tphReqs : TPh → Nat
  | .start => 0 | .sAcq => 0 | .sReq => 1 | .sDone => 0
  | .dAcq => 0 | .dReq1 => 1 | .dReq2 => 2 | .dEnd1 => 1 | .tFin => 0

/-- The task's next phase (its program is linear). -/
def tphNext : TPh → TPh
  | .start => .sAcq
  | .sAcq => .sReq
  | .sReq => .sDone
  | .sDone => .dAcq
  | .dAcq => .dReq1
  | .dReq1 => .dReq2
  | .dReq2 => .dEnd1
  | .dEnd1 => .tFin
  | .tFin => .tFin

/-- Whether the task's next step is a semaphore acquire
(`async with _semaphore`), which can proceed only under the bound. -/
def tphAcquires : TPh → Bool
  | .start => true
  | .sDone => true
  | _ => false

/-- Permits currently held across a batch of tasks. -/
def holdersSem (ts : List TPh) : Nat := (ts.map tphHolds).sum

/-- Catalog requests currently in flight across a batch of tasks. -/
def inFlightSem (ts : List TPh) : Nat := (ts.map tphReqs).sum

/-- Let task `i` take its next step: an acquire proceeds only while
fewer than 10 permits (the `asyncio.Semaphore(10)`) are held. -/
def stepSem (ts : List TPh) (i : Nat) : List TPh :=
  match ts.get? i with
  | none => ts
  | some ph =>
    if tphAcquires ph then
      (if holdersSem ts < 10 then ts.set i (tphNext ph) else ts)
    else ts.set i (tphNext ph)

/-- Run a schedule of task steps over a batch. -/
def runSem (sched : List Nat) (ts : List TPh) : List TPh :=
  sched.foldl stepSem ts

lemma tph_reqs_le_two_holds : ∀ ph : TPh, tphReqs ph ≤ 2 * tphHolds ph := by
  decide

lemma inFlight_le_two_holders (ts : List TPh) :
    inFlightSem ts ≤ 2 * holdersSem ts := by
  induction ts with
  | nil => simp [inFlightSem, holdersSem]
  | cons ph ts ih =>
    have h := tph_reqs_le_two_holds ph
    simp only [inFlightSem, holdersSem, List.map_cons, List.sum_cons] at *
    omega

lemma sum_map_set (f : TPh → Nat) :
    ∀ (ts : List TPh) (i : Nat) (ph : TPh) (h : i < ts.length),
      ((ts.set i ph).map f).sum + f (ts.get ⟨i, h⟩) = (ts.map f).sum + f ph := by
  intro ts
  induction ts with
  | nil => intro i ph h; simp at h
  | cons q ts ih =>
    intro i ph h
    match i with
    | 0 => simp [List.set]; omega
    | i' + 1 =>
      have h' : i' < ts.length := by simpa using h
      have := ih i' ph h'
      simp only [List.set, List.map_cons, List.sum_cons, List.get_cons_succ]
      omega

lemma holders_stepSem (ts : List TPh) (i : Nat)
    (h : holdersSem ts ≤ 10) : holdersSem (stepSem ts i) ≤ 10 := by
  rw [stepSem]
  cases hg : ts.get? i with
  | none => simpa using h
  | some ph =>
    have hlen : i < ts.length := by
      by_contra hc
      rw [List.get?_eq_none.mpr (by omega)] at hg
      cases hg
    have hgg : ts.get ⟨i, hlen⟩ = ph := by
      have := List.get?_eq_get hlen
      rw [hg] at this
      exact (Option.some_inj.mp this).symm
    have hsum := sum_map_set tphHolds ts i (tphNext ph) hlen
    rw [hgg] at hsum
    by_cases ha : tphAcquires ph
    · have hph : tphHolds ph = 0 ∧ tphHolds (tphNext ph) = 1 := by
        revert ha; cases ph <;> decide
      by_cases hfull : holdersSem ts < 10
      · simp only [ha, if_true, if_pos hfull]
        unfold holdersSem at *
        omega
      · simpa [ha, if_neg hfull] using h
    · have hph : tphHolds (tphNext ph) ≤ tphHolds ph := by
        revert ha; cases ph <;> decide
      simp only [ha, Bool.false_eq_true, if_false]
      unfold holdersSem at *
      omega

lemma holders_runSem (sched : List Nat) :
    ∀ ts : List TPh, holdersSem ts ≤ 10 →
      holdersSem (runSem sched ts) ≤ 10 := by
  induction sched with
  | nil => intro ts h; simpa [runSem] using h
  | cons i sched ih =>
    intro ts h
    rw [runSem, List.foldl_cons]
    exact ih _ (holders_stepSem ts i h)

/-- C5 (amended): throughout every execution of an enrichment batch, at
most 10 semaphore permits are held at any instant, and — since the detail
and provider fetches of one task run concurrently under a *single*
permit — at most 20 (not 10) outbound catalog requests are in flight. -/
theorem semaphore_bounds (sched : List Nat) (n : Nat) :
    holdersSem (runSem sched (List.replicate n TPh.start)) ≤ 10 ∧
    inFlightSem (runSem sched (List.replicate n TPh.start)) ≤ 20 := by
  have h0 : holdersSem (List.replicate n TPh.start) ≤ 10 := by
    simp [holdersSem, List.map_replicate, List.sum_replicate, tphHolds]
  have hh := holders_runSem sched _ h0
  refine ⟨hh, ?_⟩
  have h2 := inFlight_le_two_holders
    (runSem sched (List.replicate n TPh.start))
  omega

/-- Schedule driving each of six tasks into the middle of
`get_movie_details`'s gather (both requests in flight). -/
def cSched : List Nat :=
  ((List.range 6).map (fun i => List.replicate 6 i)).flatten

set_option maxRecDepth 8000 in
/-- C5 counterexample: with six tasks simultaneously inside the gather of
`get_movie_details` — each holding one permit with two requests in
flight — 12 catalog requests are outbound at one instant, refuting the
10-request bound (the semaphore bounds permits, not requests). -/
theorem semaphore_inflight_exceeds_ten :
    ¬ (∀ (sched : List Nat) (n : Nat),
        inFlightSem (runSem sched (List.replicate n TPh.start)) ≤ 10) := by
  intro hclaim
  have hc := hclaim cSched 6
  have h12 : inFlightSem (runSem cSched (List.replicate 6 TPh.start)) = 12 := by
    decide
  omega
